import Mathlib

/-!
Shallow embedding of `suitcase/json_metadata/__init__.py`: the `Serializer`
document accumulator (its `start`, `descriptor`, `stop`, `close` handlers and
the metadata tree it builds) and the `export` driver. External collaborators
(`event_model.sanitize_doc`, the numpy-aware JSON encoder, and the
`suitcase.utils` file manager) are modelled by their contracts as consumed by
this code: the sanitizer converts numpy scalars/arrays to native values
recursively, and the manager maps filenames to written content, records
artifacts per label, and fails an exclusive-create open when the file exists.
-/

namespace SuitcaseJsonMetadata

mutual
/-- JSON-like Python values as they appear in documents, including numpy
values (scalars and arrays) that are not JSON-native. -/
inductive Value where
  | vnull
  | vbool (b : Bool)
  | vint (n : Int)
  | vstr (s : String)
  | varr (xs : VList)
  | vobj (fs : VFields)
  | npyScalar (n : Int)
  | npyArray (xs : VList)

/-- A list of values (a Python list / JSON array). -/
inductive VList where
  | nil
  | cons (v : Value) (rest : VList)

/-- String-keyed fields of a Python dict / JSON object, in insertion order. -/
inductive VFields where
  | nil
  | cons (k : String) (v : Value) (rest : VFields)
end

deriving instance DecidableEq for Value, VList, VFields
deriving instance Repr for Value, VList, VFields

/-- Dict lookup `d.get(key)`: first binding of `key`, if any. -/
def VFields.get? : VFields → String → Option Value
  | .nil, _ => none
  | .cons k v rest, key => if k = key then some v else VFields.get? rest key

mutual
/-- Contract of `event_model.sanitize_doc` (and of what `NumpyEncoder`
produces at encoding time): replace numpy scalars with native numbers and
numpy arrays with native lists, recursively, keeping keys and order. -/
def sanitize : Value → Value
  | .vnull => .vnull
  | .vbool b => .vbool b
  | .vint n => .vint n
  | .vstr s => .vstr s
  | .varr xs => .varr (sanitizeList xs)
  | .vobj fs => .vobj (sanitizeFields fs)
  | .npyScalar n => .vint n
  | .npyArray xs => .varr (sanitizeList xs)

/-- Sanitize every element of a list of values. -/
def sanitizeList : VList → VList
  | .nil => .nil
  | .cons v rest => .cons (sanitize v) (sanitizeList rest)

/-- Sanitize every value of a dict, keeping the key set and order. -/
def sanitizeFields : VFields → VFields
  | .nil => .nil
  | .cons k v rest => .cons k (sanitize v) (sanitizeFields rest)
end

mutual
/-- A value is JSON-native when it holds no numpy value anywhere. -/
def jsonNativeB : Value → Bool
  | .vnull => true
  | .vbool _ => true
  | .vint _ => true
  | .vstr _ => true
  | .varr xs => jsonNativeListB xs
  | .vobj fs => jsonNativeFieldsB fs
  | .npyScalar _ => false
  | .npyArray _ => false

/-- Every element of the list is JSON-native. -/
def jsonNativeListB : VList → Bool
  | .nil => true
  | .cons v rest => jsonNativeB v && jsonNativeListB rest

/-- Every value of the dict is JSON-native. -/
def jsonNativeFieldsB : VFields → Bool
  | .nil => true
  | .cons _ v rest => jsonNativeB v && jsonNativeFieldsB rest
end

/-- Rendering of a value used when a format placeholder or a JSON dict key
stringifies it. Scalars follow Python; the rendering of compound values is
a simple recursive form (no claim formats a compound value). -/
def valueToStr : Value → String
  | .vnull => "None"
  | .vbool b => if b then "True" else "False"
  | .vint n => toString n
  | .vstr s => s
  | .varr _ => "<list>"
  | .vobj _ => "<dict>"
  | .npyScalar n => toString n
  | .npyArray _ => "<ndarray>"

/-- How `json.dump` renders a non-string dict key (`None` becomes null,
booleans lowercase, numbers as digits; a string key is itself). -/
def keyToStr : Option Value → String
  | none => "null"
  | some (.vstr s) => s
  | some (.vint n) => toString n
  | some (.vbool b) => if b then "true" else "false"
  | some (.vnull) => "null"
  | some v => valueToStr v

/-- Update of a Python dict `d[k] = v`: replace the first binding of `k`,
or append a new binding at the end (dicts preserve insertion order). -/
def alSet {α β : Type} [DecidableEq α] (k : α) (v : β) : List (α × β) → List (α × β)
  | [] => [(k, v)]
  | (k0, v0) :: rest => if k0 = k then (k, v) :: rest else (k0, v0) :: alSet k v rest

/-- Lookup in a Python dict: value of the first binding of `k`, if any. -/
def alGet? {α β : Type} [DecidableEq α] (k : α) : List (α × β) → Option β
  | [] => none
  | (k0, v0) :: rest => if k0 = k then some v0 else alGet? k rest

/-- Number of bindings of key `k` in an association list. -/
def alCountKey {α β : Type} [DecidableEq α] (k : α) : List (α × β) → Nat
  | [] => 0
  | (k0, _) :: rest => (if k0 = k then 1 else 0) + alCountKey k rest

/-- The keys of the association list are pairwise distinct (true of any
list built only through `alSet`, as a Python dict is). -/
def alNoDupKeysB {α β : Type} [DecidableEq α] : List (α × β) → Bool
  | [] => true
  | (k, _) :: rest => (alGet? k rest).isNone && alNoDupKeysB rest

/-- The descriptors tree `_meta['metadata']['descriptors']`:
stream name (the doc's `name` field, possibly absent) to descriptor uid to
sanitized descriptor document. -/
abbrev DescMap := List (Option Value × List (Value × VFields))

/-- Lookup `descriptors[stream_name][uid]`. -/
def descGet? (sname : Option Value) (u : Value) (d : DescMap) : Option VFields :=
  (alGet? sname d).bind fun inner => alGet? u inner

/-- The defaultdict access `descriptors[stream_name]`: create an empty inner
dict for `stream_name` when absent. -/
def vivify (sname : Option Value) (d : DescMap) : DescMap :=
  alSet sname ((alGet? sname d).getD []) d

/-- The assignment `descriptors[stream_name][uid] = doc` (defaultdict access
on `stream_name`, then dict update on `uid`). -/
def descInsert (sname : Option Value) (u : Value) (doc : VFields) (d : DescMap) : DescMap :=
  alSet sname (alSet u doc ((alGet? sname d).getD [])) d

/-- Outer and inner keys are pairwise distinct. -/
def descWFB (d : DescMap) : Bool :=
  alNoDupKeysB d && d.all fun p => alNoDupKeysB p.2

/-- Every descriptor document stored in the tree is JSON-native. -/
def descNativeB (d : DescMap) : Bool :=
  d.all fun p => p.2.all fun q => jsonNativeFieldsB q.2

/-- Exceptions the embedded code can raise. -/
inductive SErr where
  | duplicateStart
  | templateKeyError (key : String)
  | docKeyError (key : String)
  | fileExists (fname : String)
deriving DecidableEq, Repr

/-- Contract of the output sink (`suitcase.utils.MultiFileManager` or an
equivalent manager): existing files of the destination mapped to their
written content (kept decoded, as a `Value`), the artifacts it recorded per
label, its currently open handles, and how many times `close` was called. -/
structure Manager where
  files : List (String × Value)
  artifacts : List (String × List String)
  openHandles : List String
  closeCount : Nat
deriving DecidableEq, Repr

/-- A fresh manager on an empty destination. -/
def Manager.fresh : Manager :=
  { files := [], artifacts := [], openHandles := [], closeCount := 0 }

/-- Record a produced filename under a label in the artifacts mapping. -/
def addArtifact (label fname : String) (a : List (String × List String)) :
    List (String × List String) :=
  alSet label ((alGet? label a).getD [] ++ [fname]) a

/-- One piece of a `str.format` template for `file_prefix`: literal text, or
a replacement field `name` / `name[index]`. -/
inductive TItem where
  | lit (s : String)
  | field (name : String) (index : Option String)
deriving DecidableEq, Repr

/-- A `file_prefix` template string, parsed into its pieces. -/
abbrev Template := List TItem

/-- The default `file_prefix` template, the string of start[uid] followed
by a dash. -/
def defaultFilePfx : Template := [.field "start" (some "uid"), .lit "-"]

/-- Evaluate one replacement field of `template.format(start=doc)`: the only
keyword argument is `start`, so any other top-level field name raises
KeyError, as does an index absent from the start document. -/
def formatField (doc : VFields) (name : String) (index : Option String) :
    Except SErr String :=
  if name = "start" then
    match index with
    | none => .ok (valueToStr (.vobj doc))
    | some k =>
        match doc.get? k with
        | some v => .ok (valueToStr v)
        | none => .error (.templateKeyError k)
  else
    .error (.templateKeyError name)

/-- Evaluate `template.format(start=doc)` piece by piece. -/
def formatTemplate (t : Template) (doc : VFields) : Except SErr String :=
  match t with
  | [] => .ok ""
  | .lit s :: rest =>
      (formatTemplate rest doc).map fun r => s ++ r
  | .field name index :: rest =>
      match formatField doc name index with
      | .error e => .error e
      | .ok s => (formatTemplate rest doc).map fun r => s ++ r

/-- State of a `Serializer` instance: its manager, the three parts of
`_meta['metadata']` (`start`, `stop`, `descriptors`), the `_file_prefix`
template, and the `_templated_file_prefix` computed at start time
(initialized to the empty string). -/
structure Serializer where
  manager : Manager
  startDoc : Option VFields
  stopDoc : Option VFields
  descriptors : DescMap
  filePfx : Template
  templatedFilePfx : String
deriving DecidableEq, Repr

/-- Embedding of `Serializer.__init__`: empty metadata tree, empty templated prefix. -/
def Serializer.init (mgr : Manager) (filePfx : Template) : Serializer :=
  { manager := mgr, startDoc := none, stopDoc := none, descriptors := [],
    filePfx := filePfx, templatedFilePfx := "" }

/-- Embedding of `Serializer.start`: raise RuntimeError if a start was already seen
(before any mutation); otherwise store the doc verbatim under
`metadata.start`, then format the file prefix against it (a formatting
KeyError propagates after the doc was stored). -/
def Serializer.start (s : Serializer) (doc : VFields) : Serializer × Option SErr :=
  if s.startDoc.isSome then
    (s, some .duplicateStart)
  else
    let s1 := { s with startDoc := some doc }
    match formatTemplate s.filePfx doc with
    | .error e => (s1, some e)
    | .ok p => ({ s1 with templatedFilePfx := p }, none)

/-- Embedding of `Serializer.descriptor`: read the stream name with `doc.get('name')`,
sanitize the doc, then run
`descriptors[stream_name][sanitized_doc['uid']] = sanitized_doc` — the
defaultdict access vivifies the stream entry before the uid subscript can
raise KeyError. -/
def Serializer.descriptor (s : Serializer) (doc : VFields) : Serializer × Option SErr :=
  let streamName := doc.get? "name"
  let sdoc := sanitizeFields doc
  match sdoc.get? "uid" with
  | none => ({ s with descriptors := vivify streamName s.descriptors }, some (.docKeyError "uid"))
  | some uid =>
      ({ s with descriptors := descInsert streamName uid sdoc s.descriptors }, none)

/-- The dict `self._meta` as a JSON value, keys in insertion order
(`descriptors` first, then `start` when present, then `stop`). Descriptor
dict keys are stringified the way `json.dump` renders dict keys. -/
def innerFields : List (Value × VFields) → VFields
  | [] => .nil
  | (u, d) :: rest => .cons (keyToStr (some u)) (.vobj d) (innerFields rest)

/-- The outer descriptors dict as JSON object fields. -/
def outerFields : DescMap → VFields
  | [] => .nil
  | (sname, inner) :: rest =>
      .cons (keyToStr sname) (.vobj (innerFields inner)) (outerFields rest)

/-- Append an optional document as a field of a JSON object. -/
def optField (k : String) : Option VFields → VFields → VFields
  | none, rest => rest
  | some d, rest => .cons k (.vobj d) rest

/-- The whole metadata tree `self._meta` as a JSON value. -/
def Serializer.treeValue (s : Serializer) : Value :=
  .vobj (.cons "metadata"
    (.vobj (.cons "descriptors" (.vobj (outerFields s.descriptors))
      (optField "start" s.startDoc (optField "stop" s.stopDoc .nil)))) .nil)

/-- Embedding of `Serializer.close`: `self._manager.close()` — all open handles are
released; repeated calls release nothing more. -/
def Serializer.close (s : Serializer) : Serializer :=
  { s with manager := { s.manager with
      openHandles := [], closeCount := s.manager.closeCount + 1 } }

/-- Embedding of `Serializer.stop`: store the doc under `metadata.stop`, then open
`<templated_file_prefix>meta.json` in exclusive-create text mode (raising
FileExistsError when the file exists, with nothing written and no artifact
recorded), dump the tree through the numpy-aware encoder, and close. -/
def Serializer.stop (s : Serializer) (doc : VFields) : Serializer × Option SErr :=
  let s1 := { s with stopDoc := some doc }
  let fname := s1.templatedFilePfx ++ "meta.json"
  match alGet? fname s1.manager.files with
  | some _ => (s1, some (.fileExists fname))
  | none =>
      let opened := { s1.manager with
        files := s1.manager.files ++ [(fname, sanitize s1.treeValue)],
        artifacts := addArtifact "run_metadata" fname s1.manager.artifacts,
        openHandles := s1.manager.openHandles ++ [fname] }
      (({ s1 with manager := opened }).close, none)

/-- Dispatch of `serializer(name, doc)` through `event_model.DocumentRouter`:
route `start`, `descriptor` and `stop` to their handlers; every other
document kind is accepted and ignored (default no-op). -/
def Serializer.call (s : Serializer) (kind : String) (doc : VFields) :
    Serializer × Option SErr :=
  if kind = "start" then s.start doc
  else if kind = "descriptor" then s.descriptor doc
  else if kind = "stop" then s.stop doc
  else (s, none)

/-- An item yielded by the document source: a `(name, document)` pair, or
the point where the source itself raises. -/
inductive GenItem where
  | item (kind : String) (doc : VFields)
  | genRaise
deriving DecidableEq, Repr

/-- An error escaping the export loop: the source raised, or a handler did. -/
inductive ExportErr where
  | fromSource
  | fromSerializer (e : SErr)
deriving DecidableEq, Repr

/-- The `for item in gen: serializer(*item)` loop: feed items until the
source or a handler raises, returning the serializer state at that point. -/
def exportLoop (s : Serializer) : List GenItem → Serializer × Option ExportErr
  | [] => (s, none)
  | .genRaise :: _ => (s, some .fromSource)
  | .item kind doc :: rest =>
      match s.call kind doc with
      | (s1, some e) => (s1, some (.fromSerializer e))
      | (s1, none) => exportLoop s1 rest

/-- Embedding of `export(gen, directory, file_prefix)`: run the loop inside a `with`
block, so `close` runs once after the loop on every exit path; on normal
termination return `serializer.artifacts`, otherwise the error propagates. -/
def exportRun (gen : List GenItem) (mgr : Manager) (filePfx : Template) :
    Serializer × Except ExportErr (List (String × List String)) :=
  let s0 := Serializer.init mgr filePfx
  let r := exportLoop s0 gen
  let s2 := r.1.close
  match r.2 with
  | some e => (s2, .error e)
  | none => (s2, .ok s2.manager.artifacts)

/-- The stream name a descriptor document is grouped under. -/
def nameOf (d : VFields) : Option Value := d.get? "name"

/-- The uid key a descriptor document is stored under. -/
def uidOf (d : VFields) : Option Value := (sanitizeFields d).get? "uid"

/-- The sanitized content of the most recently handled descriptor with the
given stream name and uid, if any. -/
def latestMatch (docs : List VFields) (sname : Option Value) (u : Value) :
    Option VFields :=
  ((docs.filter fun d => decide (nameOf d = sname) && decide (uidOf d = some u)).map
    sanitizeFields).getLast?

/-- Handle a list of descriptor documents in order. -/
def runDescriptors (s : Serializer) (docs : List VFields) : Serializer :=
  docs.foldl (fun s d => (s.descriptor d).1) s

/-- The error is a templating error (a KeyError raised by `str.format`). -/
def isTemplateErrB : SErr → Bool
  | .templateKeyError _ => true
  | _ => false

mutual
theorem sanitize_jsonNative : (v : Value) → jsonNativeB (sanitize v) = true
  | .vnull => rfl
  | .vbool _ => rfl
  | .vint _ => rfl
  | .vstr _ => rfl
  | .varr xs => sanitizeList_jsonNative xs
  | .vobj fs => sanitizeFields_jsonNative fs
  | .npyScalar _ => rfl
  | .npyArray xs => sanitizeList_jsonNative xs

theorem sanitizeList_jsonNative : (xs : VList) → jsonNativeListB (sanitizeList xs) = true
  | .nil => rfl
  | .cons v rest => by
      simp only [sanitizeList, jsonNativeListB, sanitize_jsonNative v,
        sanitizeList_jsonNative rest, Bool.and_self]

theorem sanitizeFields_jsonNative : (fs : VFields) → jsonNativeFieldsB (sanitizeFields fs) = true
  | .nil => rfl
  | .cons k v rest => by
      simp only [sanitizeFields, jsonNativeFieldsB, sanitize_jsonNative v,
        sanitizeFields_jsonNative rest, Bool.and_self]
end

section ALists

variable {α β : Type} [DecidableEq α]

theorem alGet?_alSet_self (k : α) (v : β) (l : List (α × β)) :
    alGet? k (alSet k v l) = some v := by
  induction l with
  | nil => simp [alSet, alGet?]
  | cons p rest ih =>
      obtain ⟨k0, v0⟩ := p
      by_cases h : k0 = k
      · simp [alSet, alGet?, h]
      · simp [alSet, alGet?, h, ih]

theorem alGet?_alSet_ne {k1 k : α} (h : k1 ≠ k) (v : β) (l : List (α × β)) :
    alGet? k1 (alSet k v l) = alGet? k1 l := by
  have h2 : ¬k = k1 := fun he => h he.symm
  induction l with
  | nil => simp [alSet, alGet?, h2]
  | cons p rest ih =>
      obtain ⟨k0, v0⟩ := p
      by_cases hk : k0 = k
      · subst hk
        simp [alSet, alGet?, h2]
      · simp [alSet, alGet?, hk, ih]

theorem alGet?_eq_none_iff (k : α) (l : List (α × β)) :
    alGet? k l = none ↔ k ∉ l.map Prod.fst := by
  induction l with
  | nil => simp [alGet?]
  | cons p rest ih =>
      obtain ⟨k0, v0⟩ := p
      by_cases h : k0 = k
      · subst h
        simp [alGet?]
      · simp [alGet?, h, ih, Ne.symm h]

theorem mem_keys_alSet (k1 k : α) (v : β) (l : List (α × β)) :
    k1 ∈ (alSet k v l).map Prod.fst ↔ k1 = k ∨ k1 ∈ l.map Prod.fst := by
  induction l with
  | nil => simp [alSet]
  | cons p rest ih =>
      obtain ⟨k0, v0⟩ := p
      by_cases h : k0 = k
      · subst h
        simp [alSet]
      · simp [alSet, h, ih]
        tauto

theorem alNoDupKeysB_alSet (k : α) (v : β) (l : List (α × β))
    (h : alNoDupKeysB l = true) : alNoDupKeysB (alSet k v l) = true := by
  induction l with
  | nil => simp [alSet, alNoDupKeysB, alGet?]
  | cons p rest ih =>
      obtain ⟨k0, v0⟩ := p
      simp only [alNoDupKeysB, Bool.and_eq_true, Option.isNone_iff_eq_none] at h
      by_cases hk : k0 = k
      · subst hk
        simp only [alSet, if_pos rfl, alNoDupKeysB, Bool.and_eq_true,
          Option.isNone_iff_eq_none]
        exact ⟨h.1, h.2⟩
      · simp only [alSet, if_neg hk, alNoDupKeysB, Bool.and_eq_true,
          Option.isNone_iff_eq_none]
        exact ⟨by rw [alGet?_alSet_ne hk]; exact h.1, ih h.2⟩

theorem alCountKey_eq_zero {k : α} {l : List (α × β)} (h : alGet? k l = none) :
    alCountKey k l = 0 := by
  induction l with
  | nil => rfl
  | cons p rest ih =>
      obtain ⟨k0, v0⟩ := p
      by_cases hk : k0 = k
      · simp [alGet?, hk] at h
      · simp only [alGet?, if_neg hk] at h
        simp [alCountKey, hk, ih h]

theorem alCountKey_eq_one {k : α} {l : List (α × β)} {v : β}
    (hnd : alNoDupKeysB l = true) (h : alGet? k l = some v) :
    alCountKey k l = 1 := by
  induction l with
  | nil => simp [alGet?] at h
  | cons p rest ih =>
      obtain ⟨k0, v0⟩ := p
      simp only [alNoDupKeysB, Bool.and_eq_true, Option.isNone_iff_eq_none] at hnd
      by_cases hk : k0 = k
      · subst hk
        simp [alCountKey, alCountKey_eq_zero hnd.1]
      · simp only [alGet?, if_neg hk] at h
        simp [alCountKey, hk, ih hnd.2 h]

theorem alGet?_append_right {k : α} {l : List (α × β)} (v : β)
    (h : alGet? k l = none) : alGet? k (l ++ [(k, v)]) = some v := by
  induction l with
  | nil => simp [alGet?]
  | cons p rest ih =>
      obtain ⟨k0, v0⟩ := p
      by_cases hk : k0 = k
      · simp [alGet?, hk] at h
      · simp only [alGet?, if_neg hk] at h
        simp [alGet?, hk, ih h]

theorem alGet?_of_all {q : α × β → Bool} {l : List (α × β)} {k : α} {v : β}
    (hall : l.all q = true) (h : alGet? k l = some v) : q (k, v) = true := by
  induction l with
  | nil => simp [alGet?] at h
  | cons p rest ih =>
      obtain ⟨k0, v0⟩ := p
      simp only [List.all_cons, Bool.and_eq_true] at hall
      by_cases hk : k0 = k
      · simp only [alGet?, if_pos hk] at h
        obtain ⟨rfl⟩ := h
        rw [← hk]
        exact hall.1
      · simp only [alGet?, if_neg hk] at h
        exact ih hall.2 h

theorem all_alSet {q : α × β → Bool} {l : List (α × β)} {k : α} {v : β}
    (hall : l.all q = true) (hv : q (k, v) = true) : (alSet k v l).all q = true := by
  induction l with
  | nil => simp [alSet, hv]
  | cons p rest ih =>
      obtain ⟨k0, v0⟩ := p
      simp only [List.all_cons, Bool.and_eq_true] at hall
      by_cases hk : k0 = k
      · simp [alSet, hk, hv, List.all_cons, hall.2]
      · simp [alSet, hk, List.all_cons, hall.1, ih hall.2]

end ALists

theorem descGet?_eq_getD (sname : Option Value) (u : Value) (d : DescMap) :
    descGet? sname u d = alGet? u ((alGet? sname d).getD []) := by
  unfold descGet?
  cases alGet? sname d with
  | none => simp [alGet?]
  | some inner => simp

theorem descGet?_descInsert (sname sn0 : Option Value) (u u0 : Value)
    (v : VFields) (d : DescMap) :
    descGet? sname u (descInsert sn0 u0 v d) =
      if sname = sn0 ∧ u = u0 then some v else descGet? sname u d := by
  unfold descInsert
  by_cases hs : sname = sn0
  · subst hs
    rw [descGet?_eq_getD, alGet?_alSet_self]
    simp only [Option.getD_some]
    by_cases hu : u = u0
    · subst hu
      rw [alGet?_alSet_self]
      simp
    · rw [alGet?_alSet_ne hu, descGet?_eq_getD]
      simp [hu]
  · rw [descGet?_eq_getD, alGet?_alSet_ne hs, ← descGet?_eq_getD]
    simp [hs]

theorem descriptor_ok {d : VFields} {u : Value} (s : Serializer)
    (hu : uidOf d = some u) :
    s.descriptor d =
      ({ s with descriptors := descInsert (nameOf d) u (sanitizeFields d) s.descriptors },
        none) := by
  unfold Serializer.descriptor
  dsimp only
  unfold uidOf at hu
  rw [hu]
  rfl

theorem descWFB_descInsert (sn0 : Option Value) (u0 : Value) (v : VFields)
    (d : DescMap) (h : descWFB d = true) :
    descWFB (descInsert sn0 u0 v d) = true := by
  unfold descWFB at h ⊢
  simp only [Bool.and_eq_true] at h ⊢
  constructor
  · exact alNoDupKeysB_alSet _ _ _ h.1
  · unfold descInsert
    apply all_alSet h.2
    apply alNoDupKeysB_alSet
    cases hin : alGet? sn0 d with
    | none => rfl
    | some inner =>
        simpa using alGet?_of_all h.2 hin

theorem descWFB_vivify (sn0 : Option Value) (d : DescMap)
    (h : descWFB d = true) : descWFB (vivify sn0 d) = true := by
  unfold descWFB at h ⊢
  simp only [Bool.and_eq_true] at h ⊢
  constructor
  · exact alNoDupKeysB_alSet _ _ _ h.1
  · unfold vivify
    apply all_alSet h.2
    cases hin : alGet? sn0 d with
    | none => rfl
    | some inner =>
        simpa using alGet?_of_all h.2 hin

theorem descNativeB_descInsert (sn0 : Option Value) (u0 : Value) (v : VFields)
    (d : DescMap) (h : descNativeB d = true) (hv : jsonNativeFieldsB v = true) :
    descNativeB (descInsert sn0 u0 v d) = true := by
  unfold descNativeB at h ⊢
  unfold descInsert
  apply all_alSet h
  simp only
  apply all_alSet _ hv
  cases hin : alGet? sn0 d with
  | none => rfl
  | some inner =>
      simpa using alGet?_of_all h hin

theorem descNativeB_vivify (sn0 : Option Value) (d : DescMap)
    (h : descNativeB d = true) : descNativeB (vivify sn0 d) = true := by
  unfold descNativeB at h ⊢
  unfold vivify
  apply all_alSet h
  simp only
  cases hin : alGet? sn0 d with
  | none => rfl
  | some inner =>
      simpa using alGet?_of_all h hin

theorem call_preserves_descNative (s : Serializer) (kind : String) (doc : VFields)
    (h : descNativeB s.descriptors = true) :
    descNativeB ((s.call kind doc).1).descriptors = true := by
  unfold Serializer.call
  by_cases h1 : kind = "start"
  · simp only [if_pos h1]
    unfold Serializer.start
    by_cases hs : s.startDoc.isSome
    · simpa [hs]
    · simp only [hs, Bool.false_eq_true, if_false]
      cases formatTemplate s.filePfx doc with
      | error e => simpa
      | ok p => simpa
  · simp only [if_neg h1]
    by_cases h2 : kind = "descriptor"
    · simp only [if_pos h2]
      unfold Serializer.descriptor
      dsimp only
      split
      · exact descNativeB_vivify _ _ h
      · exact descNativeB_descInsert _ _ _ _ h (sanitizeFields_jsonNative doc)
    · simp only [if_neg h2]
      by_cases h3 : kind = "stop"
      · simp only [if_pos h3]
        unfold Serializer.stop
        dsimp only
        split
        · exact h
        · exact h
      · simpa [if_neg h3]

theorem exportLoop_preserves_descNative (gen : List GenItem) (s : Serializer)
    (h : descNativeB s.descriptors = true) :
    descNativeB ((exportLoop s gen).1).descriptors = true := by
  induction gen generalizing s with
  | nil => simpa [exportLoop]
  | cons it rest ih =>
      cases it with
      | genRaise => simpa [exportLoop]
      | item kind doc =>
          unfold exportLoop
          cases hc : s.call kind doc with
          | mk s1 r =>
              have h1 : descNativeB s1.descriptors = true := by
                have := call_preserves_descNative s kind doc h
                rw [hc] at this
                exact this
              cases r with
              | none => simpa using ih s1 h1
              | some e => simpa

theorem formatTemplate_error_shape (t : Template) (doc : VFields) (e : SErr)
    (h : formatTemplate t doc = .error e) : isTemplateErrB e = true := by
  induction t with
  | nil => simp [formatTemplate] at h
  | cons it rest ih =>
      cases it with
      | lit s =>
          unfold formatTemplate at h
          cases hr : formatTemplate rest doc with
          | error e1 =>
              rw [hr] at h
              simp only [Except.map] at h
              obtain ⟨rfl⟩ := h
              exact ih hr
          | ok p =>
              rw [hr] at h
              simp [Except.map] at h
      | field name index =>
          unfold formatTemplate at h
          cases hf : formatField doc name index with
          | error e1 =>
              rw [hf] at h
              obtain ⟨rfl⟩ := h
              unfold formatField at hf
              by_cases hn : name = "start"
              · rw [if_pos hn] at hf
                cases index with
                | none => simp at hf
                | some k =>
                    dsimp only at hf
                    cases hg : doc.get? k with
                    | some v =>
                        rw [hg] at hf
                        simp at hf
                    | none =>
                        rw [hg] at hf
                        simp only [Except.error.injEq] at hf
                        rw [← hf]
                        rfl
              · rw [if_neg hn] at hf
                simp only [Except.error.injEq] at hf
                rw [← hf]
                rfl
          | ok p =>
              rw [hf] at h
              cases hr : formatTemplate rest doc with
              | error e1 =>
                  rw [hr] at h
                  simp only [Except.map] at h
                  obtain ⟨rfl⟩ := h
                  exact ih hr
              | ok p2 =>
                  rw [hr] at h
                  simp [Except.map] at h

theorem latestMatch_nil (sname : Option Value) (u : Value) :
    latestMatch [] sname u = none := rfl

theorem latestMatch_cons (d : VFields) (ds : List VFields) (sname : Option Value) (u : Value) :
    latestMatch (d :: ds) sname u =
      match latestMatch ds sname u with
      | some v => some v
      | none =>
          if nameOf d = sname ∧ uidOf d = some u then some (sanitizeFields d)
          else none := by
  unfold latestMatch
  rw [List.filter_cons]
  by_cases hp : nameOf d = sname ∧ uidOf d = some u
  · have hb : (decide (nameOf d = sname) && decide (uidOf d = some u)) = true := by
      simp [hp.1, hp.2]
    simp only [hb, if_true, List.map_cons, List.getLast?_cons]
    cases hl : ((ds.filter fun d =>
        decide (nameOf d = sname) && decide (uidOf d = some u)).map sanitizeFields).getLast? with
    | some v => simp
    | none => simp [if_pos hp]
  · have hb : (decide (nameOf d = sname) && decide (uidOf d = some u)) = false := by
      by_cases h1 : nameOf d = sname
      · by_cases h2 : uidOf d = some u
        · exact absurd ⟨h1, h2⟩ hp
        · simp [h2]
      · simp [h1]
    simp only [hb, Bool.false_eq_true, if_false]
    cases hl : ((ds.filter fun d =>
        decide (nameOf d = sname) && decide (uidOf d = some u)).map sanitizeFields).getLast? with
    | some v => simp
    | none => simp [if_neg hp]

theorem runDescriptors_nil (s : Serializer) : runDescriptors s [] = s := rfl

theorem runDescriptors_cons (s : Serializer) (d : VFields) (ds : List VFields) :
    runDescriptors s (d :: ds) = runDescriptors ((s.descriptor d).1) ds := rfl

theorem descGet?_runDescriptors (docs : List VFields) (s : Serializer)
    (hu : docs.all (fun d => (uidOf d).isSome) = true) (sname : Option Value) (u : Value) :
    descGet? sname u (runDescriptors s docs).descriptors =
      match latestMatch docs sname u with
      | some v => some v
      | none => descGet? sname u s.descriptors := by
  induction docs generalizing s with
  | nil => simp [runDescriptors_nil, latestMatch_nil]
  | cons d ds ih =>
      simp only [List.all_cons, Bool.and_eq_true] at hu
      obtain ⟨u0, hu0⟩ := Option.isSome_iff_exists.1 hu.1
      rw [runDescriptors_cons, ih _ hu.2, latestMatch_cons]
      rw [descriptor_ok s hu0]
      cases hl : latestMatch ds sname u with
      | some v => simp
      | none =>
          simp only
          rw [descGet?_descInsert]
          by_cases hp : nameOf d = sname ∧ uidOf d = some u

          · rw [if_pos hp]
            have : sname = nameOf d ∧ u = u0 := by
              refine ⟨hp.1.symm, ?_⟩
              have := hp.2
              rw [hu0] at this
              exact (Option.some.injEq _ _ ▸ this).symm
            rw [if_pos this]
          · rw [if_neg hp]
            have : ¬(sname = nameOf d ∧ u = u0) := by
              intro hc
              exact hp ⟨hc.1.symm, by rw [hu0, hc.2]⟩
            rw [if_neg this]

theorem keys_descInsert (k sn0 : Option Value) (u0 : Value) (v : VFields) (d : DescMap) :
    (k ∈ (descInsert sn0 u0 v d).map Prod.fst ↔ k = sn0 ∨ k ∈ d.map Prod.fst) := by
  unfold descInsert
  exact mem_keys_alSet k sn0 _ d

theorem keys_runDescriptors (docs : List VFields) (s : Serializer)
    (hu : docs.all (fun d => (uidOf d).isSome) = true) (k : Option Value) :
    (k ∈ ((runDescriptors s docs).descriptors).map Prod.fst ↔
      k ∈ docs.map nameOf ∨ k ∈ s.descriptors.map Prod.fst) := by
  induction docs generalizing s with
  | nil => simp [runDescriptors_nil]
  | cons d ds ih =>
      simp only [List.all_cons, Bool.and_eq_true] at hu
      obtain ⟨u0, hu0⟩ := Option.isSome_iff_exists.1 hu.1
      rw [runDescriptors_cons, ih _ hu.2, descriptor_ok s hu0]
      simp only [List.map_cons, List.mem_cons]
      rw [keys_descInsert]
      tauto

theorem nodup_keys_descInsert (sn0 : Option Value) (u0 : Value) (v : VFields) (d : DescMap)
    (h : alNoDupKeysB d = true) : alNoDupKeysB (descInsert sn0 u0 v d) = true := by
  unfold descInsert
  exact alNoDupKeysB_alSet _ _ _ h

theorem nodup_keys_runDescriptors (docs : List VFields) (s : Serializer)
    (hu : docs.all (fun d => (uidOf d).isSome) = true)
    (h : alNoDupKeysB s.descriptors = true) :
    alNoDupKeysB ((runDescriptors s docs).descriptors) = true := by
  induction docs generalizing s with
  | nil => simpa [runDescriptors_nil]
  | cons d ds ih =>
      simp only [List.all_cons, Bool.and_eq_true] at hu
      obtain ⟨u0, hu0⟩ := Option.isSome_iff_exists.1 hu.1
      rw [runDescriptors_cons, descriptor_ok s hu0]
      exact ih _ hu.2 (nodup_keys_descInsert _ _ _ _ h)

theorem alNoDupKeysB_iff_nodup {α β : Type} [DecidableEq α] (l : List (α × β)) :
    alNoDupKeysB l = true ↔ (l.map Prod.fst).Nodup := by
  induction l with
  | nil => simp [alNoDupKeysB]
  | cons p rest ih =>
      obtain ⟨k0, v0⟩ := p
      simp only [alNoDupKeysB, Bool.and_eq_true, Option.isNone_iff_eq_none,
        List.map_cons, List.nodup_cons, alGet?_eq_none_iff, ih]

/-- The start document of the spec's templating property. -/
def startDocEx : VFields :=
  .cons "uid" (.vstr "abc123") (.cons "plan_name" (.vstr "scan") .nil)

/-- A run-stop document. -/
def stopDocEx : VFields :=
  .cons "run_start" (.vstr "abc123") (.cons "exit_status" (.vstr "success") .nil)

/-- A descriptor document for stream primary holding a numpy scalar. -/
def descDocEx : VFields :=
  .cons "name" (.vstr "primary") (.cons "uid" (.vstr "d1") (.cons "x" (.npyScalar 7) .nil))

/-- A second descriptor document with the same stream name and uid. -/
def descDocEx2 : VFields :=
  .cons "name" (.vstr "primary") (.cons "uid" (.vstr "d1") (.cons "x" (.vint 9) .nil))

/-- A descriptor document with no name field. -/
def descDocNoName : VFields := .cons "uid" (.vstr "d2") .nil

/-- A start document holding a numpy scalar among its metadata. -/
def npyStartDoc : VFields :=
  .cons "uid" (.vstr "u1") (.cons "num" (.npyScalar 5) .nil)

/-- The claim's flat template, the field plan_name followed by a dash. -/
def flatPlanTemplate : Template := [.field "plan_name" none, .lit "-"]

/-- The template start[plan_name] followed by a dash. -/
def planTemplate : Template := [.field "start" (some "plan_name"), .lit "-"]

/-- A fixed, run-independent prefix template. -/
def fixedTemplate : Template := [.lit "fixed-"]

/-- A fresh serializer that has accepted the example start document. -/
def sStartedEx : Serializer :=
  ((Serializer.init Manager.fresh defaultFilePfx).start startDocEx).1

/-- C1: for every accumulator that has accepted a start document, a second
call to the start handler raises the duplicate-start RuntimeError on that
second call, the state is unchanged, and the metadata tree still contains
the first start document's content (the check precedes any mutation). -/
theorem second_start_raises_and_preserves (s0 s1 : Serializer) (d1 d2 : VFields)
    (h : s0.start d1 = (s1, none)) :
    s1.start d2 = (s1, some .duplicateStart) ∧ s1.startDoc = some d1 := by
  unfold Serializer.start at h
  cases hsd : s0.startDoc with
  | some d =>
      rw [hsd] at h
      simp at h
  | none =>
      rw [hsd] at h
      simp only [Option.isSome_none, Bool.false_eq_true, if_false] at h
      cases hf : formatTemplate s0.filePfx d1 with
      | error e =>
          rw [hf] at h
          simp at h
      | ok p =>
          rw [hf] at h
          simp only [Prod.mk.injEq, and_true] at h
          subst h
          exact ⟨rfl, rfl⟩

/-- C1 witness: a fresh serializer receives the example start document and
then a second document through `start`. -/
theorem second_start_raises_and_preserves_witness :
    (Serializer.init Manager.fresh defaultFilePfx).start startDocEx = (sStartedEx, none) ∧
    (sStartedEx.start stopDocEx = (sStartedEx, some .duplicateStart) ∧
      sStartedEx.startDoc = some startDocEx) :=
  ⟨by decide,
    second_start_raises_and_preserves (Serializer.init Manager.fresh defaultFilePfx)
      sStartedEx startDocEx stopDocEx (by decide)⟩

/-- C2 counterexample: a start document holding a numpy scalar is accepted
and stored verbatim — only descriptors are sanitized before insertion — so
the metadata tree then contains a non-JSON-native value, contradicting the
claim for start (and likewise stop) documents. -/
theorem start_doc_stored_unsanitized :
    ((Serializer.init Manager.fresh defaultFilePfx).start npyStartDoc).2 = none ∧
    ((Serializer.init Manager.fresh defaultFilePfx).start npyStartDoc).1.startDoc
      = some npyStartDoc ∧
    jsonNativeB
        (((Serializer.init Manager.fresh defaultFilePfx).start npyStartDoc).1.treeValue)
      = false := by
  refine ⟨by decide, by decide, by decide⟩

/-- C2 amended: descriptor documents are sanitized before insertion, so
after any sequence of documents every descriptor entry of the metadata tree
is JSON-native; start and stop documents are stored verbatim (non-native
values there are only converted by the encoder when the file is written,
and `sanitize` output is always JSON-native). -/
theorem descriptor_entries_always_native (gen : List GenItem) (mgr : Manager)
    (t : Template) :
    descNativeB ((exportLoop (Serializer.init mgr t) gen).1).descriptors = true ∧
    descNativeB ((exportRun gen mgr t).1).descriptors = true ∧
    (∀ v : Value, jsonNativeB (sanitize v) = true) := by
  have h1 := exportLoop_preserves_descNative gen (Serializer.init mgr t) rfl
  refine ⟨h1, ?_, fun v => sanitize_jsonNative v⟩
  unfold exportRun
  dsimp only
  cases hr : (exportLoop (Serializer.init mgr t) gen).2 with
  | none => exact h1
  | some e => exact h1

/-- C3 counterexample: with the flat template of the claim, the format call
receives only the keyword `start`, so the start handler raises KeyError for
plan_name, the export fails, and no file at all (in particular none named
scan-meta.json) is produced. -/
theorem flat_template_raises_keyerror :
    (exportRun [.item "start" startDocEx, .item "stop" stopDocEx]
        Manager.fresh flatPlanTemplate).2
      = .error (.fromSerializer (.templateKeyError "plan_name")) ∧
    (exportRun [.item "start" startDocEx, .item "stop" stopDocEx]
        Manager.fresh flatPlanTemplate).1.manager.files = [] :=
  ⟨rfl, rfl⟩

/-- C3 amended: for the start document of the claim, the nested template
start[plan_name]- produces the file scan-meta.json, and the default
template keyed on start[uid] produces abc123-meta.json; the flat template
plan_name- instead raises a templating KeyError at start time. -/
theorem templated_filenames :
    ((exportRun [.item "start" startDocEx, .item "stop" stopDocEx]
        Manager.fresh planTemplate).1.manager.files).map Prod.fst
      = ["scan-meta.json"] ∧
    (exportRun [.item "start" startDocEx, .item "stop" stopDocEx]
        Manager.fresh planTemplate).2
      = .ok [("run_metadata", ["scan-meta.json"])] ∧
    ((exportRun [.item "start" startDocEx, .item "stop" stopDocEx]
        Manager.fresh defaultFilePfx).1.manager.files).map Prod.fst
      = ["abc123-meta.json"] ∧
    (exportRun [.item "start" startDocEx, .item "stop" stopDocEx]
        Manager.fresh defaultFilePfx).2
      = .ok [("run_metadata", ["abc123-meta.json"])] :=
  ⟨rfl, rfl, rfl, rfl⟩

/-- C4: when the templated filename already exists in the destination,
`stop` raises the FileExistsError of the exclusive-create open: the existing
files (in particular the first export's file content) are unchanged and no
artifact is recorded — no overwrite and no retry with a different name. -/
theorem stop_exclusive_create_collision (s : Serializer) (doc : VFields) (c : Value)
    (h : alGet? (s.templatedFilePfx ++ "meta.json") s.manager.files = some c) :
    (s.stop doc).2 = some (.fileExists (s.templatedFilePfx ++ "meta.json")) ∧
    (s.stop doc).1.manager.files = s.manager.files ∧
    (s.stop doc).1.manager.artifacts = s.manager.artifacts := by
  unfold Serializer.stop
  dsimp only
  rw [h]
  exact ⟨rfl, rfl, rfl⟩

/-- The document sequence of one complete run. -/
def gen4 : List GenItem := [.item "start" startDocEx, .item "stop" stopDocEx]

/-- The destination manager after a first export with the fixed prefix. -/
def mgrAfterFirst : Manager := (exportRun gen4 Manager.fresh fixedTemplate).1.manager

/-- The second export's serializer just before its stop call. -/
def sSecondExport : Serializer :=
  ((Serializer.init mgrAfterFirst fixedTemplate).start startDocEx).1

/-- The content the first export wrote to fixed-meta.json. -/
def firstFileContent : Value := (alGet? "fixed-meta.json" mgrAfterFirst.files).getD .vnull

/-- C4 witness: two consecutive exports into the same destination with a
fixed non-unique prefix; the second stop collides on fixed-meta.json,
errors, and leaves the first file's content unchanged. -/
theorem stop_exclusive_create_collision_witness :
    alGet? (sSecondExport.templatedFilePfx ++ "meta.json") sSecondExport.manager.files
      = some firstFileContent ∧
    ((sSecondExport.stop stopDocEx).2
        = some (.fileExists (sSecondExport.templatedFilePfx ++ "meta.json")) ∧
      (sSecondExport.stop stopDocEx).1.manager.files = sSecondExport.manager.files ∧
      (sSecondExport.stop stopDocEx).1.manager.artifacts
        = sSecondExport.manager.artifacts) :=
  ⟨by decide,
    stop_exclusive_create_collision sSecondExport stopDocEx firstFileContent (by decide)⟩

/-- C5: handling two descriptor documents sharing the same stream name and
uid accepts both and leaves exactly one entry under
descriptors[stream_name][uid], holding the sanitized content of the most
recently handled descriptor. -/
theorem descriptor_reinsert_idempotent (s : Serializer) (d1 d2 : VFields)
    (sname : Option Value) (u : Value)
    (hwf : descWFB s.descriptors = true)
    (hn1 : nameOf d1 = sname) (hn2 : nameOf d2 = sname)
    (hu1 : uidOf d1 = some u) (hu2 : uidOf d2 = some u) :
    (s.descriptor d1).2 = none ∧
    ((s.descriptor d1).1.descriptor d2).2 = none ∧
    descGet? sname u (((s.descriptor d1).1.descriptor d2).1).descriptors
      = some (sanitizeFields d2) ∧
    alCountKey u
        ((alGet? sname (((s.descriptor d1).1.descriptor d2).1).descriptors).getD [])
      = 1 := by
  have hwfparts : alNoDupKeysB s.descriptors = true ∧
      s.descriptors.all (fun p => alNoDupKeysB p.2) = true := by
    have h2 := hwf
    unfold descWFB at h2
    rw [Bool.and_eq_true] at h2
    exact h2
  have hold0 : alNoDupKeysB ((alGet? sname s.descriptors).getD
      ([] : List (Value × VFields))) = true := by
    cases hin : alGet? sname s.descriptors with
    | none => rfl
    | some inner => simpa using alGet?_of_all hwfparts.2 hin
  rw [descriptor_ok s hu1]
  dsimp only
  rw [descriptor_ok _ hu2]
  dsimp only
  rw [hn1, hn2]
  refine ⟨rfl, rfl, ?_, ?_⟩
  · rw [descGet?_descInsert]
    simp
  · unfold descInsert
    rw [alGet?_alSet_self, Option.getD_some, alGet?_alSet_self, Option.getD_some]
    exact alCountKey_eq_one
      (alNoDupKeysB_alSet _ _ _ (alNoDupKeysB_alSet _ _ _ hold0))
      (alGet?_alSet_self _ _ _)

/-- C5 witness: a fresh serializer handles the two primary/d1 descriptors;
one entry remains, holding the second document's sanitized content. -/
theorem descriptor_reinsert_idempotent_witness :
    descWFB (Serializer.init Manager.fresh defaultFilePfx).descriptors = true ∧
    nameOf descDocEx = some (.vstr "primary") ∧
    nameOf descDocEx2 = some (.vstr "primary") ∧
    uidOf descDocEx = some (.vstr "d1") ∧
    uidOf descDocEx2 = some (.vstr "d1") ∧
    (((Serializer.init Manager.fresh defaultFilePfx).descriptor descDocEx).2 = none ∧
      ((((Serializer.init Manager.fresh defaultFilePfx).descriptor descDocEx).1).descriptor
          descDocEx2).2 = none ∧
      descGet? (some (.vstr "primary")) (.vstr "d1")
          (((((Serializer.init Manager.fresh defaultFilePfx).descriptor descDocEx).1).descriptor
            descDocEx2).1).descriptors
        = some (sanitizeFields descDocEx2) ∧
      alCountKey (.vstr "d1")
          ((alGet? (some (.vstr "primary"))
            (((((Serializer.init Manager.fresh defaultFilePfx).descriptor
              descDocEx).1).descriptor descDocEx2).1).descriptors).getD [])
        = 1) :=
  ⟨by decide, by decide, by decide, by decide, by decide,
    descriptor_reinsert_idempotent (Serializer.init Manager.fresh defaultFilePfx)
      descDocEx descDocEx2 (some (.vstr "primary")) (.vstr "d1")
      (by decide) (by decide) (by decide) (by decide) (by decide)⟩

/-- C6: the prefix template is evaluated when the start document is handled:
a field that cannot be resolved makes the start handler itself raise the
templating KeyError (not deferred to stop time), and when the template
resolves, the concrete prefix is fixed at start time with no output having
occurred (the manager is untouched either way). -/
theorem template_resolved_at_start_time (s : Serializer) (doc : VFields)
    (hns : s.startDoc = none) :
    (∀ e, formatTemplate s.filePfx doc = .error e →
      (s.start doc).2 = some e ∧ isTemplateErrB e = true ∧
      (s.start doc).1.manager = s.manager) ∧
    (∀ p, formatTemplate s.filePfx doc = .ok p →
      (s.start doc).2 = none ∧ (s.start doc).1.templatedFilePfx = p ∧
      (s.start doc).1.manager = s.manager) := by
  constructor
  · intro e he
    unfold Serializer.start
    rw [hns]
    simp only [Option.isSome_none, Bool.false_eq_true, if_false]
    rw [he]
    exact ⟨rfl, formatTemplate_error_shape _ _ _ he, rfl⟩
  · intro p hp
    unfold Serializer.start
    rw [hns]
    simp only [Option.isSome_none, Bool.false_eq_true, if_false]
    rw [hp]
    exact ⟨rfl, rfl, rfl⟩

/-- C6 witness: on the flat template the start handler raises the KeyError
for plan_name; on the default template it fixes the prefix abc123- with no
output. -/
theorem template_resolved_at_start_time_witness :
    (Serializer.init Manager.fresh flatPlanTemplate).startDoc = none ∧
    (((Serializer.init Manager.fresh flatPlanTemplate).start startDocEx).2
        = some (.templateKeyError "plan_name") ∧
      isTemplateErrB (.templateKeyError "plan_name") = true ∧
      ((Serializer.init Manager.fresh flatPlanTemplate).start startDocEx).1.manager
        = (Serializer.init Manager.fresh flatPlanTemplate).manager) ∧
    (((Serializer.init Manager.fresh defaultFilePfx).start startDocEx).2 = none ∧
      ((Serializer.init Manager.fresh defaultFilePfx).start startDocEx).1.templatedFilePfx
        = "abc123-" ∧
      ((Serializer.init Manager.fresh defaultFilePfx).start startDocEx).1.manager
        = (Serializer.init Manager.fresh defaultFilePfx).manager) :=
  ⟨rfl,
    (template_resolved_at_start_time (Serializer.init Manager.fresh flatPlanTemplate)
      startDocEx rfl).1 (.templateKeyError "plan_name") rfl,
    (template_resolved_at_start_time (Serializer.init Manager.fresh defaultFilePfx)
      startDocEx rfl).2 "abc123-" rfl⟩

/-- C7: handling a sequence of descriptor documents (each carrying a uid)
from a fresh serializer yields a descriptors mapping whose keys are exactly
the distinct stream names of the sequence — one key per distinct name, with
a missing name field grouped under the None key — and whose
(stream name, uid) slot holds the sanitized content of the most recently
handled matching descriptor. -/
theorem descriptor_grouping_correct (docs : List VFields) (mgr : Manager) (t : Template)
    (hu : docs.all (fun d => (uidOf d).isSome) = true) :
    (((runDescriptors (Serializer.init mgr t) docs).descriptors).map Prod.fst).Nodup ∧
    (∀ k, k ∈ ((runDescriptors (Serializer.init mgr t) docs).descriptors).map Prod.fst ↔
      k ∈ docs.map nameOf) ∧
    ((runDescriptors (Serializer.init mgr t) docs).descriptors).length
      = (docs.map nameOf).dedup.length ∧
    (∀ sname u, descGet? sname u (runDescriptors (Serializer.init mgr t) docs).descriptors
      = latestMatch docs sname u) := by
  have hnodup : alNoDupKeysB ((runDescriptors (Serializer.init mgr t) docs).descriptors)
      = true := nodup_keys_runDescriptors docs _ hu rfl
  have hnd := (alNoDupKeysB_iff_nodup _).1 hnodup
  have hmem : ∀ k,
      k ∈ ((runDescriptors (Serializer.init mgr t) docs).descriptors).map Prod.fst ↔
        k ∈ docs.map nameOf := by
    intro k
    rw [keys_runDescriptors docs _ hu k]
    simp [Serializer.init]
  refine ⟨hnd, hmem, ?_, ?_⟩
  · have hperm : List.Perm
        (((runDescriptors (Serializer.init mgr t) docs).descriptors).map Prod.fst)
        ((docs.map nameOf).dedup) := by
      rw [List.perm_ext_iff_of_nodup hnd (List.nodup_dedup _)]
      intro a
      rw [hmem a, List.mem_dedup]
    have hlen := hperm.length_eq
    simpa using hlen
  · intro sname u
    rw [descGet?_runDescriptors docs _ hu sname u]
    cases hl : latestMatch docs sname u with
    | some v => simp
    | none => simp [Serializer.init, descGet?, alGet?]

/-- C7 witness: three descriptors across the streams primary and None (one
of them re-inserting primary/d1): two outer keys, and the primary/d1 slot
holds the most recent sanitized content. -/
theorem descriptor_grouping_correct_witness :
    ([descDocEx, descDocNoName, descDocEx2].all (fun d => (uidOf d).isSome) = true) ∧
    descGet? (some (.vstr "primary")) (.vstr "d1")
        (runDescriptors (Serializer.init Manager.fresh defaultFilePfx)
          [descDocEx, descDocNoName, descDocEx2]).descriptors
      = latestMatch [descDocEx, descDocNoName, descDocEx2]
          (some (.vstr "primary")) (.vstr "d1") ∧
    descGet? none (.vstr "d2")
        (runDescriptors (Serializer.init Manager.fresh defaultFilePfx)
          [descDocEx, descDocNoName, descDocEx2]).descriptors
      = latestMatch [descDocEx, descDocNoName, descDocEx2] none (.vstr "d2") ∧
    ((runDescriptors (Serializer.init Manager.fresh defaultFilePfx)
        [descDocEx, descDocNoName, descDocEx2]).descriptors).length
      = ([descDocEx, descDocNoName, descDocEx2].map nameOf).dedup.length :=
  ⟨by decide,
    (descriptor_grouping_correct [descDocEx, descDocNoName, descDocEx2]
      Manager.fresh defaultFilePfx (by decide)).2.2.2 (some (.vstr "primary")) (.vstr "d1"),
    (descriptor_grouping_correct [descDocEx, descDocNoName, descDocEx2]
      Manager.fresh defaultFilePfx (by decide)).2.2.2 none (.vstr "d2"),
    (descriptor_grouping_correct [descDocEx, descDocNoName, descDocEx2]
      Manager.fresh defaultFilePfx (by decide)).2.2.1⟩

/-- C8: the export driver dispatches each item by kind to the matching
handler and ignores unrecognized kinds; close runs exactly once after the
loop (the close count rises by one and no handle stays open) on both normal
and error-raising termination; on normal termination the artifact listing
is returned, otherwise the error propagates. -/
theorem export_driver_contract (gen : List GenItem) (mgr : Manager) (t : Template) :
    (exportRun gen mgr t).1 = (exportLoop (Serializer.init mgr t) gen).1.close ∧
    (exportRun gen mgr t).1.manager.closeCount
      = (exportLoop (Serializer.init mgr t) gen).1.manager.closeCount + 1 ∧
    (exportRun gen mgr t).1.manager.openHandles = [] ∧
    ((exportLoop (Serializer.init mgr t) gen).2 = none →
      (exportRun gen mgr t).2 = .ok ((exportRun gen mgr t).1.manager.artifacts)) ∧
    (∀ e, (exportLoop (Serializer.init mgr t) gen).2 = some e →
      (exportRun gen mgr t).2 = .error e) ∧
    (∀ s doc, Serializer.call s "start" doc = s.start doc) ∧
    (∀ s doc, Serializer.call s "descriptor" doc = s.descriptor doc) ∧
    (∀ s doc, Serializer.call s "stop" doc = s.stop doc) ∧
    (∀ s kind doc, kind ≠ "start" → kind ≠ "descriptor" → kind ≠ "stop" →
      Serializer.call s kind doc = (s, none)) := by
  have hc1 : (exportRun gen mgr t).1 = (exportLoop (Serializer.init mgr t) gen).1.close := by
    unfold exportRun
    dsimp only
    cases (exportLoop (Serializer.init mgr t) gen).2 <;> rfl
  refine ⟨hc1, ?_, ?_, ?_, ?_, ?_, ?_, ?_, ?_⟩
  · rw [hc1]
    rfl
  · rw [hc1]
    rfl
  · intro hn
    unfold exportRun
    dsimp only
    rw [hn]
  · intro e he
    unfold exportRun
    dsimp only
    rw [he]
  · intro s doc
    rfl
  · intro s doc
    unfold Serializer.call
    rw [if_neg (by decide), if_pos rfl]
  · intro s doc
    unfold Serializer.call
    rw [if_neg (by decide), if_neg (by decide), if_pos rfl]
  · intro s kind doc h1 h2 h3
    unfold Serializer.call
    rw [if_neg h1, if_neg h2, if_neg h3]

/-- The document sequence of a full run including an ignored event item. -/
def gen8 : List GenItem :=
  [.item "start" startDocEx, .item "descriptor" descDocEx,
    .item "event" .nil, .item "stop" stopDocEx]

/-- A document sequence whose source raises after the start item. -/
def gen8raising : List GenItem := [.item "start" startDocEx, .genRaise]

/-- C8 witness: a run with an ignored event kind terminating normally, and
a run whose source raises; the driver theorem applies to both, and the
normal run returns its artifact listing. -/
theorem export_driver_contract_witness :
    (exportLoop (Serializer.init Manager.fresh defaultFilePfx) gen8).2 = none ∧
    (exportRun gen8 Manager.fresh defaultFilePfx).2
      = .ok ((exportRun gen8 Manager.fresh defaultFilePfx).1.manager.artifacts) ∧
    (exportLoop (Serializer.init Manager.fresh defaultFilePfx) gen8raising).2
      = some .fromSource ∧
    (exportRun gen8raising Manager.fresh defaultFilePfx).2 = .error .fromSource ∧
    ("event" ≠ "start" ∧ "event" ≠ "descriptor" ∧ "event" ≠ "stop") ∧
    Serializer.call (Serializer.init Manager.fresh defaultFilePfx) "event" .nil
      = (Serializer.init Manager.fresh defaultFilePfx, none) :=
  ⟨rfl,
    (export_driver_contract gen8 Manager.fresh defaultFilePfx).2.2.2.1 rfl,
    rfl,
    (export_driver_contract gen8raising Manager.fresh defaultFilePfx).2.2.2.2.1
      .fromSource rfl,
    ⟨by decide, by decide, by decide⟩,
    (export_driver_contract gen8 Manager.fresh defaultFilePfx).2.2.2.2.2.2.2.2
      (Serializer.init Manager.fresh defaultFilePfx) "event" .nil
      (by decide) (by decide) (by decide)⟩

/-- C9: close is safe and idempotent — a second close changes no files,
artifacts, or open handles; and exporting an empty document sequence raises
no error: when the destination manager starts with no recorded artifacts,
the returned artifact listing is empty and no file is touched. -/
theorem close_idempotent_and_safe (s : Serializer) (mgr : Manager) (t : Template)
    (hart : mgr.artifacts = []) :
    s.close.close.manager.files = s.close.manager.files ∧
    s.close.close.manager.artifacts = s.close.manager.artifacts ∧
    s.close.close.manager.openHandles = s.close.manager.openHandles ∧
    (exportRun [] mgr t).2 = .ok [] ∧
    (exportRun [] mgr t).1.manager.files = mgr.files := by
  refine ⟨rfl, rfl, rfl, ?_, rfl⟩
  unfold exportRun exportLoop Serializer.init Serializer.close
  dsimp only
  rw [hart]

/-- C9 witness: a closed serializer closed again, and an export of the
empty document sequence from a fresh destination. -/
theorem close_idempotent_and_safe_witness :
    Manager.fresh.artifacts = [] ∧
    (sStartedEx.close.close.manager.files = sStartedEx.close.manager.files ∧
      sStartedEx.close.close.manager.artifacts = sStartedEx.close.manager.artifacts ∧
      sStartedEx.close.close.manager.openHandles = sStartedEx.close.manager.openHandles ∧
      (exportRun [] Manager.fresh defaultFilePfx).2 = .ok [] ∧
      (exportRun [] Manager.fresh defaultFilePfx).1.manager.files = Manager.fresh.files) :=
  ⟨rfl, close_idempotent_and_safe sStartedEx Manager.fresh defaultFilePfx rfl⟩

/-- C10: a serializer that never received a start document accepts a stop
document without error; the templated prefix still holds its initial empty
string (as a fresh serializer does), so the file written is named exactly
meta.json and its tree holds the stop document and the descriptors but no
start entry. -/
theorem stop_without_start_writes_meta_json (s : Serializer) (doc : VFields)
    (hstart : s.startDoc = none) (hpfx : s.templatedFilePfx = "")
    (hfree : alGet? "meta.json" s.manager.files = none) :
    (∀ m t, (Serializer.init m t).templatedFilePfx = "" ∧
      (Serializer.init m t).startDoc = none) ∧
    (s.stop doc).2 = none ∧
    alGet? "meta.json" ((s.stop doc).1.manager.files)
      = some (sanitize (.vobj (.cons "metadata" (.vobj (.cons "descriptors"
          (.vobj (outerFields s.descriptors))
          (.cons "stop" (.vobj doc) .nil))) .nil))) ∧
    (s.stop doc).1.manager.artifacts
      = addArtifact "run_metadata" "meta.json" s.manager.artifacts := by
  refine ⟨fun m t => ⟨rfl, rfl⟩, ?_⟩
  unfold Serializer.stop
  dsimp only
  rw [hpfx]
  rw [show ("" ++ "meta.json" : String) = "meta.json" from rfl]
  rw [hfree]
  dsimp only [Serializer.close]
  refine ⟨rfl, ?_, rfl⟩
  rw [alGet?_append_right _ hfree]
  unfold Serializer.treeValue
  dsimp only
  rw [hstart]
  rfl

/-- A serializer that received one descriptor but never a start document. -/
def sNoStart : Serializer :=
  ((Serializer.init Manager.fresh defaultFilePfx).descriptor descDocEx).1

/-- C10 witness: a fresh serializer with one descriptor and no start
handles a stop: it writes meta.json with stop and descriptors but no start
entry. -/
theorem stop_without_start_writes_meta_json_witness :
    sNoStart.startDoc = none ∧ sNoStart.templatedFilePfx = "" ∧
    alGet? "meta.json" sNoStart.manager.files = none ∧
    ((∀ m t, (Serializer.init m t).templatedFilePfx = "" ∧
        (Serializer.init m t).startDoc = none) ∧
      (sNoStart.stop stopDocEx).2 = none ∧
      alGet? "meta.json" ((sNoStart.stop stopDocEx).1.manager.files)
        = some (sanitize (.vobj (.cons "metadata" (.vobj (.cons "descriptors"
            (.vobj (outerFields sNoStart.descriptors))
            (.cons "stop" (.vobj stopDocEx) .nil))) .nil))) ∧
      (sNoStart.stop stopDocEx).1.manager.artifacts
        = addArtifact "run_metadata" "meta.json" sNoStart.manager.artifacts) :=
  ⟨rfl, rfl, rfl,
    stop_without_start_writes_meta_json sNoStart stopDocEx rfl rfl rfl⟩

end SuitcaseJsonMetadata
